import Mathlib

/-!
Shallow embedding of `niio/loaded.py`: a uniform loading interface for
neuroimaging data files (.mat, .gii, .h5, .p).  Numpy arrays are modelled as
row-major flat lists of integers together with a shape; the external format
libraries (h5py, scipy.io, nibabel, pickle) are modelled as black boxes that
hand the reader the already-parsed container, per the spec's exclusion of the
format libraries themselves.
-/

namespace Niio

/-- A numpy ndarray: `shape` is the list of dimensions, `data` the row-major
flattened contents (element type fixed to `Int`). -/
structure NDArray where
  shape : List Nat
  data : List Int
  deriving DecidableEq, Repr

/-- Well-formedness: the flat data has exactly as many elements as the shape
prescribes. -/
def NDArray.wf (a : NDArray) : Prop := a.data.length = a.shape.prod

instance (a : NDArray) : Decidable a.wf := by unfold NDArray.wf; infer_instance

/-- `np.squeeze`: remove all singleton dimensions.  Row-major flat data is
unchanged by removing size-1 axes. -/
def NDArray.squeeze (a : NDArray) : NDArray :=
  ⟨a.shape.filter (fun d => d ≠ 1), a.data⟩

/-- Row-major flat index of a multi-index `is` in an array of shape `ds`. -/
def flatIdx : List Nat → List Nat → Nat
  | _ :: ds, i :: is => i * ds.prod + flatIdx ds is
  | _, _ => 0

/-- Multi-index of row-major flat position `j` in an array of shape `ds`. -/
def unflatten : List Nat → Nat → List Nat
  | [], _ => []
  | _ :: ds, j => (j / ds.prod) :: unflatten ds (j % ds.prod)

/-- `ndarray.T`: reverse the axis order (numpy's transpose with no axes
argument), permuting the row-major data accordingly. -/
def NDArray.transpose (a : NDArray) : NDArray :=
  ⟨a.shape.reverse,
   (List.range a.shape.reverse.prod).map
     (fun j => a.data.getD (flatIdx a.shape ((unflatten a.shape.reverse j).reverse)) 0)⟩

/-- Number of axes (`ndarray.ndim`). -/
def NDArray.ndim (a : NDArray) : Nat := a.shape.length

/-- The per-array preprocessing step of `np.column_stack`: an array of fewer
than 2 dimensions is re-created with `ndmin=2` and transposed (a 0-d value
becomes 1x1, a length-n vector becomes an nx1 column); 2-d and higher arrays
pass through unchanged. -/
def to2dT (a : NDArray) : NDArray :=
  match a.shape with
  | [] => ⟨[1, 1], a.data⟩
  | [n] => ⟨[n, 1], a.data⟩
  | _ => a

/-- `np.concatenate(arrs, axis=1)` for arrays of matching rank (at least 2)
that agree on every dimension except axis 1.  `none` models the `ValueError`
numpy raises on an empty list or mismatched shapes. -/
def concatAx1 (arrs : List NDArray) : Option NDArray :=
  match arrs with
  | [] => none
  | a0 :: _ =>
    match a0.shape with
    | d0 :: _ :: rs =>
      if arrs.all (fun b =>
          match b.shape with
          | e0 :: _ :: es => e0 == d0 && es == rs
          | _ => false) then
        some ⟨d0 :: (arrs.map (fun b => b.shape.getD 1 0)).sum :: rs,
              (List.range d0).flatMap (fun i => arrs.flatMap (fun b =>
                ((b.data.drop (i * (b.shape.getD 1 0 * rs.prod))).take
                  (b.shape.getD 1 0 * rs.prod))))⟩
      else none
    | _ => none

/-- `np.column_stack`: preprocess each array with the ndmin-2-and-transpose
step, then concatenate along axis 1. -/
def columnStack (arrs : List NDArray) : Option NDArray :=
  concatAx1 (arrs.map to2dT)

/-- Association-list lookup with string keys, modelling `container[key]`
access and preserving insertion order for iteration. -/
def assoc {β : Type} : List (String × β) → String → Option β
  | [], _ => none
  | (k', v) :: t, k => if k' = k then some v else assoc t k

/-- Index of the last occurrence of character `c` in `cs`, if any. -/
def lastIndexOf (cs : List Char) (c : Char) : Option Nat :=
  (List.range cs.length).foldl
    (fun acc i => if cs.getD i ' ' = c then some i else acc) none

/-- The extension component of `os.path.splitext(p)[1]` (posix rules,
`sep = '/'`, `extsep = '.'`): the suffix starting at the last dot after the
last separator, provided some character of the basename strictly before that
dot is not itself a dot (so dot-files like `.bashrc` have no extension). -/
def splitextExt (p : String) : String :=
  let cs := p.data
  let sepIndex : Int :=
    match lastIndexOf cs '/' with
    | some i => (i : Int)
    | none => -1
  match lastIndexOf cs '.' with
  | none => ""
  | some dotIndex =>
    if (dotIndex : Int) > sepIndex then
      let start := (sepIndex + 1).toNat
      if (List.range' start (dotIndex - start)).any
          (fun i => cs.getD i '.' ≠ '.') then
        String.mk (cs.drop dotIndex)
      else ""
    else ""

/-- ASCII lowercasing of a character, used only to state that an extension
is a case-variant of a supported one. -/
def lowerChar (c : Char) : Char :=
  if 'A' ≤ c ∧ c ≤ 'Z' then Char.ofNat (c.toNat + 32) else c

/-- ASCII lowercasing of a string. -/
def lowerString (s : String) : String := String.mk (s.data.map lowerChar)

/-- Errors surfaced by `load`: the failed `assert os.path.exists` and the
`KeyError` of an unregistered extension in `function_map`. -/
inductive LoadError where
  | assertionError
  | keyError (ext : String)
  deriving DecidableEq, Repr

/-- `load(datafile, **kwargs)`: assert the path exists, split off the
extension, and dispatch through `function_map` to the matching reader,
forwarding the keyword options unchanged.  The four readers are parameters
(`κ` the type of the forwarded keyword options, `ρ` the readers' result
type); `pathExists` models `os.path.exists`. -/
def load {κ ρ : Type} (pathExists : String → Bool)
    (loadMatF loadGiiF loadH5F loadPickF : String → κ → ρ)
    (datafile : String) (kwargs : κ) : Except LoadError ρ :=
  if pathExists datafile then
    let function_map : List (String × (String → κ → ρ)) :=
      [(".mat", loadMatF), (".gii", loadGiiF), (".h5", loadH5F), (".p", loadPickF)]
    match assoc function_map (splitextExt datafile) with
    | some f => .ok (f datafile kwargs)
    | none => .error (.keyError (splitextExt datafile))
  else .error .assertionError

/-! ## loadMat -/

/-- The container object bound to `matData` inside `loadMat`: either a live
`h5py._hl.files.File` handle or a plain dict (what `scipy.io.loadmat`
returns, and what the no-selector branch rebinds `matData` to).  Entries are
kept in the container's iteration order. -/
inductive MatData where
  | h5file (entries : List (String × NDArray))
  | dict (entries : List (String × NDArray))
  deriving DecidableEq, Repr

/-- The `type(matData) == h5py._hl.files.File` runtime check. -/
def MatData.isH5File : MatData → Bool
  | .h5file _ => true
  | .dict _ => false

/-- The container's key/value pairs in iteration order. -/
def MatData.entries : MatData → List (String × NDArray)
  | .h5file es => es
  | .dict es => es

/-- `matData.keys()` in iteration order. -/
def MatData.keys (m : MatData) : List String := m.entries.map Prod.fst

/-- `matData[k]`, `None` modelling the `KeyError` on a missing key. -/
def MatData.lookup (m : MatData) (k : String) : Option NDArray :=
  assoc m.entries k

/-- Decidable equality for `Except`, so concrete reader outcomes can be
settled by `decide`. -/
instance {e a : Type} [DecidableEq e] [DecidableEq a] : DecidableEq (Except e a) := fun x y =>
  match x, y with
  | .ok u, .ok v =>
    if h : u = v then isTrue (h ▸ rfl) else isFalse (fun hh => h (Except.ok.inj hh))
  | .error u, .error v =>
    if h : u = v then isTrue (h ▸ rfl) else isFalse (fun hh => h (Except.error.inj hh))
  | .ok _, .error _ => isFalse (fun hh => Except.noConfusion hh)
  | .error _, .ok _ => isFalse (fun hh => Except.noConfusion hh)

/-- Python's `s.startswith(p)`: `p` is a prefix of `s` (character-wise, so it
reduces definitionally on literals). -/
def pyStartswith (s p : String) : Bool := p.data.isPrefixOf s.data

/-- Errors of `loadMat`: the `Warning` when neither backend can read the
file, the `UnboundLocalError` raised by `return mat` when the named-dataset
`KeyError` left `mat` unassigned, and the `IndexError` of
`list(matData.keys())[0]` on a container with no non-private key. -/
inductive MatError where
  | warningCannotRead
  | unboundLocalError
  | indexError
  deriving DecidableEq, Repr

/-- Result of a `loadMat` call together with whether the h5py file handle
was closed before the function exited. -/
structure MatOutcome where
  result : Except MatError NDArray
  closed : Bool
  deriving DecidableEq, Repr

/-- Body of `loadMat` after the container has been opened.  Faithful to the
source: in the no-selector branch `matData` is rebound to a plain dict of
the non-private entries, so the two later `type(matData) == h5py...File`
checks (transpose and close) test the rebound dict, not the original
handle. -/
def loadMatBody (matData : MatData) (datasets : Option String) : MatOutcome :=
  match datasets with
  | some name =>
    match matData.lookup name with
    | some v =>
      let mat := v.squeeze
      let mat := if matData.isH5File then mat.transpose else mat
      { result := .ok mat, closed := matData.isH5File }
    | none =>
      -- KeyError caught by `pass`; `mat` stays unassigned and `return mat`
      -- raises UnboundLocalError (after the conditional close).
      { result := .error .unboundLocalError, closed := matData.isH5File }
  | none =>
    let keys := matData.keys.filter (fun k => pyStartswith k "_")
    let matData2 : MatData :=
      .dict (matData.entries.filter (fun kv => !keys.contains kv.1))
    match matData2.keys.head? with
    | none => { result := .error .indexError, closed := matData2.isH5File }
    | some key =>
      match matData2.lookup key with
      | some v =>
        let mat := v.squeeze
        let mat := if matData2.isH5File then mat.transpose else mat
        { result := .ok mat, closed := matData2.isH5File }
      | none => { result := .error .indexError, closed := matData2.isH5File }

/-- How the file on disk presents to the two MATLAB backends: an HDF5-backed
MATLAB file (h5py.File succeeds), a legacy MATLAB file (h5py raises OSError,
scipy.io.loadmat succeeds), or neither (both fail). -/
inductive MatSource where
  | hdf5File (entries : List (String × NDArray))
  | legacyFile (entries : List (String × NDArray))
  | unreadable
  deriving DecidableEq, Repr

/-- The try/except opening cascade of `loadMat`: h5py first, scipy second,
`Warning('Cannot read with h5py or scipy.io.')` if both fail. -/
def openMat : MatSource → Except MatError MatData
  | .hdf5File es => .ok (.h5file es)
  | .legacyFile es => .ok (.dict es)
  | .unreadable => .error .warningCannotRead

/-- `loadMat(infile, datasets=None)`: open via the backend cascade, then run
the selection/normalization body. -/
def loadMat (src : MatSource) (datasets : Option String) : MatOutcome :=
  match openMat src with
  | .ok matData => loadMatBody matData datasets
  | .error e => { result := .error e, closed := false }

/-! ## loadGii -/

/-- The parsed image object returned by `nb.load`: a
`nb.gifti.GiftiImage` carrying a list of data arrays (each modelled by the
`np.asarray(...)` of its `.data`), or a `nb.nifti2.Nifti2Image` carrying a
single volume. -/
inductive GiiImage where
  | gifti (darrays : List NDArray)
  | nifti2 (vol : NDArray)
  deriving DecidableEq, Repr

/-- The `datasets` argument of `loadGii`: a bare int, a numpy array of
indices, or a list of indices (the default is the empty list). -/
inductive GiiSelector where
  | int (i : Nat)
  | ndarray (l : List Nat)
  | list (l : List Nat)
  deriving DecidableEq, Repr

/-- Errors of `loadGii`: the `Warning` when the file cannot be read, the
`AttributeError` of `len(gii.darrays)` on a non-gifti image, the
`IndexError` of `gii.darrays[j]` on an out-of-range index, and the
`ValueError` of `np.column_stack` on an empty or mismatched array list. -/
inductive GiiError where
  | warningCannotRead
  | attributeError
  | indexError
  | valueError
  deriving DecidableEq, Repr

/-- What `nb.load(infile)` yields for the path: a parsed image, or an
`IOError` (re-raised as a `Warning`). -/
inductive GiiSource where
  | image (img : GiiImage)
  | unreadable
  deriving DecidableEq, Repr

/-- `len(gii.darrays)`: only a `GiftiImage` has the attribute. -/
def GiiImage.numDarrays : GiiImage → Except GiiError Nat
  | .gifti ds => .ok ds.length
  | .nifti2 _ => .error .attributeError

/-- The selector-normalization block of `loadGii`: a bare int becomes a
one-element list, a numpy array becomes a list (even when empty), and an
empty list expands to `list(np.arange(len(gii.darrays)))`. -/
def normalizeSelector (datasets : GiiSelector) (img : GiiImage) :
    Except GiiError (List Nat) :=
  match datasets with
  | .int i => .ok [i]
  | .ndarray l => .ok l
  | .list l => if l = [] then img.numDarrays.map List.range else .ok l

/-- The gathering loop of `loadGii`: `darray.append(np.asarray(
gii.darrays[j].data).squeeze())` for each selected index, in selector
order. -/
def gatherDarrays (darrays : List NDArray) : List Nat → Except GiiError (List NDArray)
  | [] => .ok []
  | j :: t =>
    match darrays.get? j with
    | some a => (gatherDarrays darrays t).map (a.squeeze :: ·)
    | none => .error .indexError

/-- The selector normalization as a plain list of indices: a single index
becomes a one-element list, an array-like selector becomes its list of
indices, and an empty (or default) list selector expands to all `n` array
indices in order.  On a gifti image, `normalizeSelector` computes exactly
this list. -/
def selIndices (sel : GiiSelector) (n : Nat) : List Nat :=
  match sel with
  | .int i => [i]
  | .ndarray l => l
  | .list l => if l = [] then List.range n else l

/-- `loadGii(infile, datasets=[], group=None)`: read the image, normalize the
selector, and for a gifti image column-stack the selected squeezed arrays
(then squeeze the stack); for a nifti2 image return its squeezed volume.
The `group` argument is unused in the source and omitted here. -/
def loadGii (src : GiiSource) (datasets : GiiSelector) : Except GiiError NDArray :=
  match src with
  | .unreadable => .error .warningCannotRead
  | .image img =>
    match normalizeSelector datasets img with
    | .error e => .error e
    | .ok ds =>
      match img with
      | .gifti darrays =>
        match gatherDarrays darrays ds with
        | .ok arrs =>
          match columnStack arrs with
          | some st => .ok st.squeeze
          | none => .error .valueError
        | .error e => .error e
      | .nifti2 vol => .ok vol.squeeze

/-! ## loadH5 -/

/-- A node of an HDF5 file tree: a dataset (leaf array) or a named group. -/
inductive H5Node where
  | dataset (arr : NDArray)
  | group (entries : List (String × H5Node))

/-- `np.asarray(h5Lower[k])`: a dataset materializes to its array.  (For a
sub-group numpy wraps the h5py object in a 0-d object array; the claims only
exercise dataset children, so a 0-d placeholder stands in for that object
wrapper.) -/
def H5Node.asarray : H5Node → NDArray
  | .dataset a => a
  | .group _ => ⟨[], []⟩

/-- Errors of `loadH5`: the failed existence assert, the `Warning` when the
file cannot be opened, the missing-group and missing-key `Warning`s, and the
failure mode when the named group object is not a group (its `keys()` /
string indexing are unavailable). -/
inductive H5Error where
  | assertionError
  | warningCannotLoad
  | missingGroup (g : String)
  | missingKey (k : String)
  | notAGroup
  deriving DecidableEq, Repr

/-- Handle events of a `loadH5` call, in order: the top-level open, the group
resolution, the `h5.close()` right after it, each `h5Lower[k]` read, and the
final `h5Lower.close()`. -/
inductive H5Event where
  | openTop
  | resolveGroup (g : String)
  | closeTop
  | readKey (k : String)
  | closeLower
  deriving DecidableEq, Repr

/-- Result of a `loadH5` call paired with its handle-event trace. -/
structure H5Outcome where
  result : Except H5Error (List (String × NDArray))
  events : List H5Event
  deriving DecidableEq, Repr

/-- Python-dict insertion: `data[k] = v` replaces an existing binding for `k`
and otherwise appends in iteration order. -/
def dictInsert (d : List (String × NDArray)) (k : String) (v : NDArray) :
    List (String × NDArray) :=
  if d.any (fun kv => kv.1 = k) then
    d.map (fun kv => if kv.1 = k then (k, v) else kv)
  else d ++ [(k, v)]

/-- The `for k in datasets` loop of `loadH5`: materialize each requested key
into `data`, raising the missing-attribute `Warning` at the first absent
key. -/
def loadH5Loop (entries : List (String × H5Node)) (ks : List String)
    (data : List (String × NDArray)) :
    Except H5Error (List (String × NDArray)) × List H5Event :=
  match ks with
  | [] => (.ok data, [])
  | k :: rest =>
    match assoc entries k with
    | some node =>
      let re := loadH5Loop entries rest (dictInsert data k node.asarray)
      (re.1, .readKey k :: re.2)
    | none => (.error (.missingKey k), [])

/-- What opening the path with `h5py.File(infile, 'r')` yields. -/
inductive H5Source where
  | readable (entries : List (String × H5Node))
  | unreadable

/-- `loadH5(infile, datasets=None, group=None)`: assert existence, open the
file, optionally descend into `group` (closing the top-level handle right
after the lookup, and raising the missing-group `Warning` on a `KeyError`),
default `datasets` to the resolved object's keys when absent or empty (the
`if not datasets` check), run the read loop, close the resolved handle, and
return the mapping. -/
def loadH5 (pathExists : Bool) (src : H5Source)
    (datasets : Option (List String)) (group : Option String) : H5Outcome :=
  if !pathExists then ⟨.error .assertionError, []⟩
  else
    match src with
    | .unreadable => ⟨.error .warningCannotLoad, []⟩
    | .readable entries =>
      let resolved : Except H5Error (List (String × H5Node)) × List H5Event :=
        match group with
        | some g =>
          match assoc entries g with
          | some (.group sub) => (.ok sub, [.openTop, .resolveGroup g, .closeTop])
          | some (.dataset _) => (.error .notAGroup, [.openTop, .resolveGroup g, .closeTop])
          | none => (.error (.missingGroup g), [.openTop])
        | none => (.ok entries, [.openTop])
      match resolved with
      | (.error e, evs) => ⟨.error e, evs⟩
      | (.ok lower, evs) =>
        let ks : List String :=
          match datasets with
          | none => lower.map Prod.fst
          | some l => if l = [] then lower.map Prod.fst else l
        let re := loadH5Loop lower ks []
        match re.1 with
        | .ok data => ⟨.ok data, evs ++ re.2 ++ [.closeLower]⟩
        | .error e => ⟨.error e, evs ++ re.2⟩

/-! ## loadPick -/

/-- A serializable Python object, the model's object language for the pickle
codec: `none`, booleans, integers, strings-as-nat-lists, and pairs give
arbitrarily structured values. -/
inductive PyObj where
  | pynone
  | boolean (b : Bool)
  | int (n : Int)
  | pair (a b : PyObj)
  deriving DecidableEq, Repr

/-- `pickle.dump`: serialize an object to a byte stream (tag byte followed by
the payload; pairs concatenate the serializations of their components). -/
def dumps : PyObj → List Nat
  | .pynone => [0]
  | .boolean b => [1, if b then 1 else 0]
  | .int n => [2, if n < 0 then 1 else 0, n.natAbs]
  | .pair a b => 4 :: (dumps a ++ dumps b)

/-- One step of the pickle decoder, fuelled by the remaining input length:
read one object off the front of the stream and return it with the unread
tail. -/
def loads : Nat → List Nat → Option (PyObj × List Nat)
  | 0, _ => none
  | _ + 1, 0 :: rest => some (.pynone, rest)
  | _ + 1, 1 :: b :: rest => some (.boolean (b ≠ 0), rest)
  | _ + 1, 2 :: sgn :: mag :: rest =>
    some (.int (if sgn = 1 then -(mag : Int) else (mag : Int)), rest)
  | fuel + 1, 4 :: rest =>
    match loads fuel rest with
    | some (a, r1) =>
      match loads fuel r1 with
      | some (b, r2) => some (.pair a b, r2)
      | none => none
    | none => none
  | _ + 1, _ => none

/-- `pickle.load`: decode one object from the stream (`none` models the
`UnpicklingError` on a malformed stream). -/
def pickleLoad (bytes : List Nat) : Option PyObj :=
  match loads bytes.length bytes with
  | some (o, _) => some o
  | none => none

/-- Errors of `loadPick`: the failed existence assert, the `Warning` on an
`IOError` while opening, and the propagated deserialization failure. -/
inductive PickError where
  | assertionError
  | warningCannotLoad
  | unpicklingError
  deriving DecidableEq, Repr

/-- What the path holds for `loadPick`: a readable byte stream or a file
that raises `IOError` on open. -/
inductive PickSource where
  | readable (bytes : List Nat)
  | unreadable
  deriving DecidableEq, Repr

/-- `loadPick(infile, datasets=None, group=None)`: assert existence, open,
deserialize, and return the object unchanged (no schema or type validation;
the `datasets`/`group` arguments are unused in the source and omitted). -/
def loadPick (pathExists : Bool) (src : PickSource) : Except PickError PyObj :=
  if !pathExists then .error .assertionError
  else
    match src with
    | .unreadable => .error .warningCannotLoad
    | .readable bytes =>
      match pickleLoad bytes with
      | some o => .ok o
      | none => .error .unpicklingError

/-! ## loadSurf -/

/-- What the two surface backends yield for the path: `nb.load(inFile)`
gives an image whose darrays carry `.data` arrays; `nb.freesurfer.
read_geometry(inFile)` gives a (vertices, faces) pair. -/
structure SurfFile where
  darrays : List NDArray
  geometry : NDArray × NDArray
  deriving DecidableEq, Repr

/-- Error of `loadSurf`: the `IndexError` of `surf.darrays[0]` /
`surf.darrays[1]` when the gifti image has fewer than two data arrays. -/
inductive SurfError where
  | indexError
  deriving DecidableEq, Repr

/-- `loadSurf(inFile, gifti=True)`: in gifti mode take darray 0 as vertices
and darray 1 as faces; otherwise take the components of the native geometry
pair.  Returns the two-element list `[vertices, faces]`, with no validation
of either array. -/
def loadSurf (inFile : SurfFile) (gifti : Bool) : Except SurfError (List NDArray) :=
  if gifti then
    match inFile.darrays.get? 0, inFile.darrays.get? 1 with
    | some vertices, some faces => .ok [vertices, faces]
    | _, _ => .error .indexError
  else
    .ok [inFile.geometry.1, inFile.geometry.2]

end Niio

namespace Niio

-- concrete evaluations of the embedded operations and readers
example :
    (NDArray.transpose ⟨[3, 4], [0, 1, 2, 3, 4, 5, 6, 7, 8, 9, 10, 11]⟩) =
      ⟨[4, 3], [0, 4, 8, 1, 5, 9, 2, 6, 10, 3, 7, 11]⟩ := by decide

example :
    columnStack [⟨[2], [1, 2]⟩, ⟨[2], [3, 4]⟩, ⟨[2], [5, 6]⟩] =
      some ⟨[2, 3], [1, 3, 5, 2, 4, 6]⟩ := by decide

example : splitextExt "data.mat" = ".mat" := by decide
example : splitextExt "data.MAT" = ".MAT" := by decide
example : splitextExt "data" = "" := by decide
example : splitextExt ".bashrc" = "" := by decide
example : splitextExt "a/b.tar.gz" = ".gz" := by decide
example : splitextExt "a.b/c" = "" := by decide

example :
    loadMat (.hdf5File [("A", ⟨[3, 4], List.range 12 |>.map Int.ofNat⟩)]) none =
      { result := .ok ⟨[3, 4], List.range 12 |>.map Int.ofNat⟩, closed := false } := by decide

example :
    loadMat (.hdf5File [("A", ⟨[3, 4], List.range 12 |>.map Int.ofNat⟩)]) (some "A") =
      { result := .ok ⟨[4, 3], [0, 4, 8, 1, 5, 9, 2, 6, 10, 3, 7, 11]⟩, closed := true } := by decide

example :
    loadMat (.hdf5File [("A", ⟨[3, 4], List.range 12 |>.map Int.ofNat⟩)]) (some "B") =
      { result := .error .unboundLocalError, closed := true } := by decide

example :
    loadMat (.legacyFile [("__header__", ⟨[], [0]⟩), ("__globals__", ⟨[], [0]⟩),
        ("data", ⟨[2, 2], [1, 2, 3, 4]⟩)]) none =
      { result := .ok ⟨[2, 2], [1, 2, 3, 4]⟩, closed := false } := by decide

end Niio

namespace Niio

example :
    loadGii (.image (.gifti [⟨[2], [1, 2]⟩, ⟨[2], [3, 4]⟩, ⟨[2], [5, 6]⟩])) (.list []) =
      .ok ⟨[2, 3], [1, 3, 5, 2, 4, 6]⟩ := by decide

example :
    loadGii (.image (.gifti [⟨[2], [1, 2]⟩, ⟨[2], [3, 4]⟩, ⟨[2], [5, 6]⟩])) (.list [1]) =
      .ok ⟨[2], [3, 4]⟩ := by decide

example :
    loadGii (.image (.gifti [⟨[2], [1, 2]⟩, ⟨[2], [3, 4]⟩, ⟨[2], [5, 6]⟩])) (.int 1) =
      .ok ⟨[2], [3, 4]⟩ := by decide

example :
    loadH5 true (.readable [("g", .group [("x", .dataset ⟨[2], [7, 8]⟩),
        ("y", .dataset ⟨[1], [9]⟩)])]) none (some "g") =
      ⟨.ok [("x", ⟨[2], [7, 8]⟩), ("y", ⟨[1], [9]⟩)],
       [.openTop, .resolveGroup "g", .closeTop, .readKey "x", .readKey "y", .closeLower]⟩ := by
  decide

example :
    loadH5 true (.readable [("x", .dataset ⟨[2], [7, 8]⟩)]) none (some "h") =
      ⟨.error (.missingGroup "h"), [.openTop]⟩ := by decide

example :
    loadH5 true (.readable [("x", .dataset ⟨[2], [7, 8]⟩)]) (some ["x", "z"]) none =
      ⟨.error (.missingKey "z"), [.openTop, .readKey "x"]⟩ := by decide

example :
    loadPick true (.readable (dumps (.pair (.int (-3)) (.pair .pynone (.boolean true))))) =
      .ok (.pair (.int (-3)) (.pair .pynone (.boolean true))) := by decide

example :
    loadSurf ⟨[⟨[3, 3], [0, 0, 0, 1, 0, 0, 0, 1, 0]⟩, ⟨[1, 3], [0, 1, 2]⟩], (⟨[], []⟩, ⟨[], []⟩)⟩ true =
      .ok [⟨[3, 3], [0, 0, 0, 1, 0, 0, 0, 1, 0]⟩, ⟨[1, 3], [0, 1, 2]⟩] := by decide

end Niio

namespace Niio

/-! ## Claim theorems -/

/-- A concrete stored 3x4 array (HDF5 orientation), used as test input. -/
def matA34 : NDArray := ⟨[3, 4], [0, 1, 2, 3, 4, 5, 6, 7, 8, 9, 10, 11]⟩

/-- C1: the claim says every HDF5-backed `loadMat` result of 2+ dimensions is
the transpose of the stored orientation on both selection paths.  The code
transposes only on the named-dataset path: in the default first-non-private-
key path `matData` is rebound to a plain dict, so the `type(matData) ==
h5py...File` transpose check is dead and a stored 3x4 array comes back 3x4,
not 4x3. -/
theorem c1_loadMat_hdf5_transposes_only_named_path :
    loadMat (.hdf5File [("A", matA34)]) (some "A") =
      { result := .ok ⟨[4, 3], [0, 4, 8, 1, 5, 9, 2, 6, 10, 3, 7, 11]⟩, closed := true } ∧
    loadMat (.hdf5File [("A", matA34)]) none =
      { result := .ok matA34, closed := false } ∧
    matA34.shape = [3, 4] := by
  decide

/-- C2: the claim says a missing named dataset makes `loadMat` silently yield
nothing.  The `KeyError` is indeed swallowed by `pass`, but `mat` is then
never assigned, so `return mat` raises `UnboundLocalError` on both backends:
the call fails rather than returning quietly. -/
theorem c2_loadMat_missing_named_key_raises_unbound_local :
    (loadMat (.hdf5File [("A", matA34)]) (some "B")).result =
      .error .unboundLocalError ∧
    (loadMat (.legacyFile [("A", matA34)]) (some "B")).result =
      .error .unboundLocalError := by
  decide

/-- C7 counterexample: an HDF5-backed `loadMat` call that takes the
no-selector default-key path exits without closing the file handle, refuting
the claim that every HDF5-backed call closes it on every exit path. -/
theorem c7_counterexample_default_path_leaves_handle_open :
    (loadMat (.hdf5File [("A", matA34)]) none).closed = false := by
  decide

/-- C7 (amended): an HDF5-backed `loadMat` call closes the file handle
exactly when a dataset name was given (whether or not the key exists); on
the no-selector default-key path `matData` is rebound to a plain dict before
the close check, so the handle is never closed there. -/
theorem c7_loadMat_closes_handle_only_on_named_path
    (entries : List (String × NDArray)) (name : String) :
    (loadMat (.hdf5File entries) (some name)).closed = true ∧
    (loadMat (.hdf5File entries) none).closed = false := by
  constructor
  · show (loadMatBody (.h5file entries) (some name)).closed = true
    simp only [loadMatBody]
    split <;> rfl
  · show (loadMatBody (.h5file entries) none).closed = false
    simp only [loadMatBody]
    split
    · rfl
    · split <;> rfl

/-- C9: in gifti mode `loadSurf` returns the two-element list `[vertices,
faces]` taken from darray 0 and darray 1, for every image with at least two
data arrays and with no validation of the face indices (the second conjunct
exercises a face array whose entries exceed the vertex count). -/
theorem c9_loadSurf_gifti_returns_darrays_0_1 :
    (∀ (vertices faces : NDArray) (rest : List NDArray) (geom : NDArray × NDArray),
      loadSurf ⟨vertices :: faces :: rest, geom⟩ true = .ok [vertices, faces]) ∧
    loadSurf ⟨[⟨[2, 3], [0, 0, 0, 1, 1, 1]⟩, ⟨[1, 3], [0, 1, 99]⟩], (⟨[], []⟩, ⟨[], []⟩)⟩ true =
      .ok [⟨[2, 3], [0, 0, 0, 1, 1, 1]⟩, ⟨[1, 3], [0, 1, 99]⟩] := by
  exact ⟨fun _ _ _ _ => rfl, rfl⟩

end Niio

namespace Niio

/-- C4: for an existing path, `load` returns exactly what the reader
registered for the path's extension returns on that path with the keyword
options forwarded unchanged; an existing path with an unregistered extension
fails with the `KeyError` lookup error; a nonexistent path fails with the
`AssertionError` missing-file error. -/
theorem c4_load_routes_by_extension_and_forwards_options {κ ρ : Type}
    (pathExists : String → Bool) (fm fg fh fp : String → κ → ρ)
    (p : String) (kwargs : κ) :
    (pathExists p = true → splitextExt p = ".mat" →
      load pathExists fm fg fh fp p kwargs = .ok (fm p kwargs)) ∧
    (pathExists p = true → splitextExt p = ".gii" →
      load pathExists fm fg fh fp p kwargs = .ok (fg p kwargs)) ∧
    (pathExists p = true → splitextExt p = ".h5" →
      load pathExists fm fg fh fp p kwargs = .ok (fh p kwargs)) ∧
    (pathExists p = true → splitextExt p = ".p" →
      load pathExists fm fg fh fp p kwargs = .ok (fp p kwargs)) ∧
    (pathExists p = true → splitextExt p ≠ ".mat" → splitextExt p ≠ ".gii" →
      splitextExt p ≠ ".h5" → splitextExt p ≠ ".p" →
      load pathExists fm fg fh fp p kwargs = .error (.keyError (splitextExt p))) ∧
    (pathExists p = false →
      load pathExists fm fg fh fp p kwargs = .error .assertionError) := by
  refine ⟨?_, ?_, ?_, ?_, ?_, ?_⟩
  · intro hex hsp; simp [load, hex, hsp, assoc]
  · intro hex hsp; simp [load, hex, hsp, assoc]
  · intro hex hsp; simp [load, hex, hsp, assoc]
  · intro hex hsp; simp [load, hex, hsp, assoc]
  · intro hex h1 h2 h3 h4
    simp [load, hex, assoc, Ne.symm h1, Ne.symm h2, Ne.symm h3, Ne.symm h4]
  · intro hex; simp [load, hex]

/-- C4 witness: the routing theorem applied at concrete paths, readers and
options. -/
theorem c4_load_routes_witness :
    load (fun _ => true) (fun _ _ => 10) (fun _ _ => 11) (fun _ _ => 12)
        (fun _ _ => 13) "brain.mat" (5 : Nat) = .ok 10 ∧
    load (fun _ => true) (fun _ _ => 10) (fun _ _ => 11) (fun _ _ => 12)
        (fun _ _ => 13) "brain.gii" (5 : Nat) = .ok 11 ∧
    load (fun _ => true) (fun _ _ => 10) (fun _ _ => 11) (fun _ _ => 12)
        (fun _ _ => 13) "brain.h5" (5 : Nat) = .ok 12 ∧
    load (fun _ => true) (fun _ _ => 10) (fun _ _ => 11) (fun _ _ => 12)
        (fun _ _ => 13) "brain.p" (5 : Nat) = .ok 13 ∧
    load (fun _ => true) (fun _ _ => 10) (fun _ _ => 11) (fun _ _ => 12)
        (fun _ _ => 13) "brain.nii" (5 : Nat) = .error (.keyError ".nii") ∧
    load (fun _ => false) (fun _ _ => 10) (fun _ _ => 11) (fun _ _ => 12)
        (fun _ _ => 13) "brain.mat" (5 : Nat) = .error .assertionError := by
  refine ⟨?_, ?_, ?_, ?_, ?_, ?_⟩
  · exact (c4_load_routes_by_extension_and_forwards_options (fun _ => true)
      (fun _ _ => 10) (fun _ _ => 11) (fun _ _ => 12) (fun _ _ => 13)
      "brain.mat" 5).1 rfl (by decide)
  · exact (c4_load_routes_by_extension_and_forwards_options (fun _ => true)
      (fun _ _ => 10) (fun _ _ => 11) (fun _ _ => 12) (fun _ _ => 13)
      "brain.gii" 5).2.1 rfl (by decide)
  · exact (c4_load_routes_by_extension_and_forwards_options (fun _ => true)
      (fun _ _ => 10) (fun _ _ => 11) (fun _ _ => 12) (fun _ _ => 13)
      "brain.h5" 5).2.2.1 rfl (by decide)
  · exact (c4_load_routes_by_extension_and_forwards_options (fun _ => true)
      (fun _ _ => 10) (fun _ _ => 11) (fun _ _ => 12) (fun _ _ => 13)
      "brain.p" 5).2.2.2.1 rfl (by decide)
  · have h := (c4_load_routes_by_extension_and_forwards_options (fun _ => true)
      (fun _ _ => 10) (fun _ _ => 11) (fun _ _ => 12) (fun _ _ => 13)
      "brain.nii" 5).2.2.2.2.1 rfl (by decide) (by decide) (by decide) (by decide)
    simpa using h
  · exact (c4_load_routes_by_extension_and_forwards_options (fun _ => false)
      (fun _ _ => 10) (fun _ _ => 11) (fun _ _ => 12) (fun _ _ => 13)
      "brain.mat" 5).2.2.2.2.2 rfl

/-- C10: extension matching in `load` is case-sensitive and based only on
the path's final suffix as split by `os.path.splitext`: every existing path
whose suffix is a case-variant of a supported extension without being equal
to it fails with the same `KeyError` lookup error as an unsupported
extension, every existing path with no suffix at all fails the same way, and
any path whose final suffix is exactly `.mat` routes on that final suffix
alone whatever earlier dots it contains.  The readers are fully parametric,
so the dispatch never consults the file's content. -/
theorem c10_load_extension_case_sensitive_final_suffix {κ ρ : Type}
    (pathExists : String → Bool) (fm fg fh fp : String → κ → ρ)
    (p : String) (kwargs : κ) :
    (pathExists p = true →
      splitextExt p ∉ ([".mat", ".gii", ".h5", ".p"] : List String) →
      lowerString (splitextExt p) ∈ ([".mat", ".gii", ".h5", ".p"] : List String) →
      load pathExists fm fg fh fp p kwargs = .error (.keyError (splitextExt p))) ∧
    (pathExists p = true → splitextExt p = "" →
      load pathExists fm fg fh fp p kwargs = .error (.keyError "")) ∧
    (pathExists p = true → splitextExt p = ".mat" →
      load pathExists fm fg fh fp p kwargs = .ok (fm p kwargs)) := by
  refine ⟨?_, ?_, ?_⟩
  · intro hex hno _
    have h1 : splitextExt p ≠ ".mat" := fun he => hno (by rw [he]; simp)
    have h2 : splitextExt p ≠ ".gii" := fun he => hno (by rw [he]; simp)
    have h3 : splitextExt p ≠ ".h5" := fun he => hno (by rw [he]; simp)
    have h4 : splitextExt p ≠ ".p" := fun he => hno (by rw [he]; simp)
    simp [load, hex, assoc, Ne.symm h1, Ne.symm h2, Ne.symm h3, Ne.symm h4]
  · intro hex he
    have hna : assoc [(".mat", fm), (".gii", fg), (".h5", fh), (".p", fp)]
        "" = none := rfl
    simp [load, hex, he, hna]
  · intro hex he
    simp [load, hex, he, assoc]

/-- C10 witness: the case-sensitivity theorem applied at concrete paths with
an upper-case `.MAT` suffix, an upper-case `.GII` suffix, no suffix, and a
multi-dot `.mat` path, with concrete readers and options. -/
theorem c10_load_extension_witness :
    load (fun _ => true) (fun _ _ => 10) (fun _ _ => 11) (fun _ _ => 12)
        (fun _ _ => 13) "data.MAT" (5 : Nat) = .error (.keyError ".MAT") ∧
    load (fun _ => true) (fun _ _ => 10) (fun _ _ => 11) (fun _ _ => 12)
        (fun _ _ => 13) "surf.GII" (5 : Nat) = .error (.keyError ".GII") ∧
    load (fun _ => true) (fun _ _ => 10) (fun _ _ => 11) (fun _ _ => 12)
        (fun _ _ => 13) "data" (5 : Nat) = .error (.keyError "") ∧
    load (fun _ => true) (fun _ _ => 10) (fun _ _ => 11) (fun _ _ => 12)
        (fun _ _ => 13) "data.h5.mat" (5 : Nat) = .ok 10 := by
  refine ⟨?_, ?_, ?_, ?_⟩
  · have h := (c10_load_extension_case_sensitive_final_suffix (fun _ => true)
      (fun _ _ => 10) (fun _ _ => 11) (fun _ _ => 12) (fun _ _ => 13)
      "data.MAT" 5).1 rfl (by decide) (by decide)
    simpa using h
  · have h := (c10_load_extension_case_sensitive_final_suffix (fun _ => true)
      (fun _ _ => 10) (fun _ _ => 11) (fun _ _ => 12) (fun _ _ => 13)
      "surf.GII" 5).1 rfl (by decide) (by decide)
    simpa using h
  · exact (c10_load_extension_case_sensitive_final_suffix (fun _ => true)
      (fun _ _ => 10) (fun _ _ => 11) (fun _ _ => 12) (fun _ _ => 13)
      "data" 5).2.1 rfl (by decide)
  · exact (c10_load_extension_case_sensitive_final_suffix (fun _ => true)
      (fun _ _ => 10) (fun _ _ => 11) (fun _ _ => 12) (fun _ _ => 13)
      "data.h5.mat" 5).2.2 rfl (by decide)

end Niio

namespace Niio

/-- Decoding inverts encoding: with enough fuel, `loads` reads back exactly
the object that `dumps` wrote, leaving the rest of the stream untouched. -/
theorem loads_dumps (o : PyObj) :
    ∀ (fuel : Nat) (rest : List Nat), (dumps o).length ≤ fuel →
      loads fuel (dumps o ++ rest) = some (o, rest) := by
  induction o with
  | pynone =>
    intro fuel rest h
    cases fuel with
    | zero => simp [dumps] at h
    | succ f => simp [dumps, loads]
  | boolean b =>
    intro fuel rest h
    cases fuel with
    | zero => simp [dumps] at h
    | succ f => cases b <;> simp [dumps, loads]
  | int n =>
    intro fuel rest h
    cases fuel with
    | zero => simp [dumps] at h
    | succ f =>
      by_cases hn : n < 0
      · simp only [dumps, hn, if_true, List.cons_append, List.nil_append, loads]
        simp only [if_pos rfl, Option.some.injEq, Prod.mk.injEq, PyObj.int.injEq]
        constructor
        · omega
        · rfl
      · simp only [dumps, hn, if_false, List.cons_append, List.nil_append, loads]
        simp only [Option.some.injEq, Prod.mk.injEq, PyObj.int.injEq]
        refine ⟨?_, rfl⟩
        split
        · omega
        · omega
  | pair a b iha ihb =>
    intro fuel rest h
    cases fuel with
    | zero => simp [dumps] at h
    | succ f =>
      have hl : (dumps a).length ≤ f ∧ (dumps b).length ≤ f := by
        simp [dumps] at h; omega
      have ha := iha f (dumps b ++ rest) hl.1
      have hb := ihb f rest hl.2
      simp [dumps, loads, List.append_assoc, ha, hb]

/-- C8: `loadPick` round-trips: loading a file that holds the serialization
of any object returns that object, unchanged and unvalidated. -/
theorem c8_loadPick_round_trip (o : PyObj) :
    loadPick true (.readable (dumps o)) = .ok o := by
  have h := loads_dumps o (dumps o).length [] le_rfl
  rw [List.append_nil] at h
  simp [loadPick, pickleLoad, h]

end Niio

namespace Niio

/-- Looking up a key through an entry-wise value map factors through the
plain lookup. -/
theorem assoc_map {β γ : Type} (f : β → γ) (l : List (String × β)) (k : String) :
    assoc (l.map (fun q => (q.1, f q.2))) k = (assoc l k).map f := by
  induction l with
  | nil => rfl
  | cons q t ih => by_cases h : q.1 = k <;> simp [assoc, h, ih]

/-- In an association list with distinct keys, every entry is found by its
own key. -/
theorem assoc_self_of_nodup {β : Type} (l : List (String × β))
    (hnd : (l.map Prod.fst).Nodup) : ∀ p ∈ l, assoc l p.1 = some p.2 := by
  induction l with
  | nil => simp
  | cons q t ih =>
    intro p hp
    rcases List.mem_cons.mp hp with hp | hp
    · subst hp; simp [assoc]
    · have hq : q.1 ≠ p.1 := by
        intro he
        have : p.1 ∈ t.map Prod.fst := List.mem_map_of_mem Prod.fst hp
        rw [← he] at this
        exact (List.nodup_cons.mp hnd).1 this
      have ht := (List.nodup_cons.mp hnd).2
      simp [assoc, hq, ih ht p hp]

/-- The read loop of `loadH5`, when every requested key is bound to a
dataset, appends the materialized entries to `data` in request order and
emits one read event per key. -/
theorem loadH5Loop_datasets (subArrs : List (String × NDArray)) :
    ∀ (entries : List (String × H5Node)) (data : List (String × NDArray)),
      (∀ p ∈ subArrs, assoc entries p.1 = some (.dataset p.2)) →
      (∀ q ∈ data, ∀ p ∈ subArrs, q.1 ≠ p.1) →
      (subArrs.map Prod.fst).Nodup →
      loadH5Loop entries (subArrs.map Prod.fst) data =
        (.ok (data ++ subArrs), subArrs.map (fun p => H5Event.readKey p.1)) := by
  induction subArrs with
  | nil => intro entries data _ _ _; simp [loadH5Loop]
  | cons p t ih =>
    rcases p with ⟨k, a⟩
    intro entries data hfound hdisj hnd
    have hk := hfound (k, a) (by simp)
    have hany : data.any (fun kv => kv.1 = k) = false := by
      simp only [List.any_eq_false, decide_eq_true_eq]
      intro q hq
      exact hdisj q hq (k, a) (by simp)
    have hins : dictInsert data k (H5Node.asarray (.dataset a)) = data ++ [(k, a)] := by
      simp [dictInsert, hany, H5Node.asarray]
    have hdisj' : ∀ q ∈ data ++ [(k, a)], ∀ p ∈ t, q.1 ≠ p.1 := by
      intro q hq p hp
      rcases List.mem_append.mp hq with hq | hq
      · exact hdisj q hq p (by simp [hp])
      · have hqk : q = (k, a) := by simpa using hq
        subst hqk
        intro he
        have : p.1 ∈ t.map Prod.fst := List.mem_map_of_mem Prod.fst hp
        rw [← he] at this
        exact (List.nodup_cons.mp hnd).1 this
    have hrec := ih entries (data ++ [(k, a)])
      (fun p hp => hfound p (by simp [hp])) hdisj' (List.nodup_cons.mp hnd).2
    simp only [List.map_cons]
    rw [loadH5Loop]
    simp only [hk, hins, hrec]
    simp

end Niio

namespace Niio

/-- C3: `loadH5` with a group and no explicit dataset list returns exactly
the mapping of the keys directly under the group (distinct keys, each bound
to a dataset), fully materialized and in the group's own iteration order,
with the prescribed handle ordering: top-level open, group resolution,
top-level close, the per-key reads, and the sub-handle close. -/
theorem c3_loadH5_group_default_returns_group_keys
    (top : List (String × H5Node)) (g : String)
    (subArrs : List (String × NDArray))
    (hg : assoc top g = some (.group (subArrs.map (fun p => (p.1, H5Node.dataset p.2)))))
    (hnd : (subArrs.map Prod.fst).Nodup) :
    loadH5 true (.readable top) none (some g) =
      ⟨.ok subArrs,
       [.openTop, .resolveGroup g, .closeTop] ++
         subArrs.map (fun p => H5Event.readKey p.1) ++ [.closeLower]⟩ := by
  have hkeys : (subArrs.map (fun p => (p.1, H5Node.dataset p.2))).map Prod.fst =
      subArrs.map Prod.fst := by
    simp
  have hfound : ∀ p ∈ subArrs,
      assoc (subArrs.map (fun q => (q.1, H5Node.dataset q.2))) p.1 =
        some (.dataset p.2) := by
    intro p hp
    rw [assoc_map (fun b => H5Node.dataset b) subArrs p.1,
      assoc_self_of_nodup subArrs hnd p hp]
    rfl
  have hloop := loadH5Loop_datasets subArrs
    (subArrs.map (fun q => (q.1, H5Node.dataset q.2))) [] hfound (by simp) hnd
  simp only [loadH5, Bool.not_true, Bool.false_eq_true, if_false, hg, hkeys, hloop]
  simp

/-- C3 witness: the group-read theorem applied at a concrete two-dataset
group. -/
theorem c3_loadH5_group_default_witness :
    loadH5 true
        (.readable [("g", .group [("x", .dataset ⟨[2], [7, 8]⟩),
                                  ("y", .dataset ⟨[1], [9]⟩)])])
        none (some "g") =
      ⟨.ok [("x", ⟨[2], [7, 8]⟩), ("y", ⟨[1], [9]⟩)],
       [.openTop, .resolveGroup "g", .closeTop, .readKey "x", .readKey "y",
        .closeLower]⟩ := by
  have h := c3_loadH5_group_default_returns_group_keys
    [("g", .group [("x", .dataset ⟨[2], [7, 8]⟩), ("y", .dataset ⟨[1], [9]⟩)])]
    "g" [("x", ⟨[2], [7, 8]⟩), ("y", ⟨[1], [9]⟩)] rfl (by decide)
  simpa using h

/-- The read loop fails with the missing-key error of some absent requested
key as soon as any requested key is absent, regardless of the accumulator. -/
theorem loadH5Loop_missing (entries : List (String × H5Node)) :
    ∀ (ks : List String) (data : List (String × NDArray)) (k : String),
      k ∈ ks → assoc entries k = none →
      ∃ k', k' ∈ ks ∧ assoc entries k' = none ∧
        (loadH5Loop entries ks data).1 = .error (.missingKey k') := by
  intro ks
  induction ks with
  | nil => intro data k hk; simp at hk
  | cons k0 rest ih =>
    intro data k hk hnone
    cases h0 : assoc entries k0 with
    | none =>
      exact ⟨k0, by simp, h0, by simp [loadH5Loop, h0]⟩
    | some node =>
      have hk' : k ∈ rest := by
        rcases List.mem_cons.mp hk with he | hm
        · subst he; rw [hnone] at h0; exact absurd h0 (by simp)
        · exact hm
      obtain ⟨k', hmem, hknone, hres⟩ :=
        ih (dictInsert data k0 node.asarray) k hk' hnone
      refine ⟨k', by simp [hmem], hknone, ?_⟩
      simp [loadH5Loop, h0, hres]

/-- C6: requesting a missing group makes `loadH5` fail with the
missing-group error, and requesting a dataset key absent from the resolved
object — whether that is the top-level file or a successfully resolved
group — makes it fail with a missing-key error; in every case the result is
an error, so no partial mapping is returned. -/
theorem c6_loadH5_missing_group_and_missing_key_fail :
    (∀ (top : List (String × H5Node)) (ds : Option (List String)) (g : String),
      assoc top g = none →
      loadH5 true (.readable top) ds (some g) =
        ⟨.error (.missingGroup g), [.openTop]⟩) ∧
    (∀ (top : List (String × H5Node)) (ks : List String) (k : String),
      k ∈ ks → assoc top k = none →
      ∃ k', k' ∈ ks ∧ assoc top k' = none ∧
        (loadH5 true (.readable top) (some ks) none).result =
          .error (.missingKey k')) ∧
    (∀ (top : List (String × H5Node)) (g : String)
        (sub : List (String × H5Node)) (ks : List String) (k : String),
      assoc top g = some (.group sub) →
      k ∈ ks → assoc sub k = none →
      ∃ k', k' ∈ ks ∧ assoc sub k' = none ∧
        (loadH5 true (.readable top) (some ks) (some g)).result =
          .error (.missingKey k')) := by
  refine ⟨?_, ?_, ?_⟩
  · intro top ds g hg
    simp [loadH5, hg]
  · intro top ks k hk hnone
    obtain ⟨k', hmem, hknone, hres⟩ := loadH5Loop_missing top ks [] k hk hnone
    refine ⟨k', hmem, hknone, ?_⟩
    have hne : ks ≠ [] := by intro he; rw [he] at hk; simp at hk
    simp only [loadH5, Bool.not_true, Bool.false_eq_true, if_false, hne,
      if_neg hne, hres]
  · intro top g sub ks k hg hk hnone
    obtain ⟨k', hmem, hknone, hres⟩ := loadH5Loop_missing sub ks [] k hk hnone
    refine ⟨k', hmem, hknone, ?_⟩
    have hne : ks ≠ [] := by intro he; rw [he] at hk; simp at hk
    simp only [loadH5, Bool.not_true, Bool.false_eq_true, if_false, hg, hne,
      if_neg hne, hres]

/-- C6 witness: the failure theorem applied at a concrete file without the
requested group, at a concrete file without a requested top-level key, and
at a concrete file whose resolved group lacks a requested key. -/
theorem c6_loadH5_missing_witness :
    loadH5 true (.readable [("x", .dataset ⟨[2], [7, 8]⟩)]) none (some "h") =
      ⟨.error (.missingGroup "h"), [.openTop]⟩ ∧
    (loadH5 true (.readable [("x", .dataset ⟨[2], [7, 8]⟩)])
        (some ["x", "z"]) none).result = .error (.missingKey "z") ∧
    (loadH5 true (.readable [("g", .group [("x", .dataset ⟨[2], [7, 8]⟩)])])
        (some ["x", "z"]) (some "g")).result = .error (.missingKey "z") := by
  refine ⟨?_, ?_, ?_⟩
  · exact c6_loadH5_missing_group_and_missing_key_fail.1
      [("x", .dataset ⟨[2], [7, 8]⟩)] none "h" rfl
  · obtain ⟨k', hmem, hknone, hres⟩ :=
      c6_loadH5_missing_group_and_missing_key_fail.2.1
        [("x", .dataset ⟨[2], [7, 8]⟩)] ["x", "z"] "z" (by simp) rfl
    have hk' : k' = "z" := by
      rcases List.mem_cons.mp hmem with he | hm
      · rw [he] at hknone; exact absurd hknone (by simp [assoc])
      · simpa using hm
    rw [hk'] at hres
    exact hres
  · obtain ⟨k', hmem, hknone, hres⟩ :=
      c6_loadH5_missing_group_and_missing_key_fail.2.2
        [("g", .group [("x", .dataset ⟨[2], [7, 8]⟩)])] "g"
        [("x", .dataset ⟨[2], [7, 8]⟩)] ["x", "z"] "z" rfl (by simp) rfl
    have hk' : k' = "z" := by
      rcases List.mem_cons.mp hmem with he | hm
      · rw [he] at hknone; exact absurd hknone (by simp [assoc])
      · simpa using hm
    rw [hk'] at hres
    exact hres

end Niio

namespace Niio

/-- Removing the singleton dimensions of a shape leaves its total element
count unchanged. -/
theorem prod_filter_ne_one (l : List Nat) :
    (l.filter (fun d => d ≠ 1)).prod = l.prod := by
  induction l with
  | nil => rfl
  | cons d t ih =>
    by_cases h : d = 1
    · subst h
      rw [List.filter_cons, if_neg (by simp), ih, List.prod_cons, one_mul]
    · rw [List.filter_cons, if_pos (by simp [h]), List.prod_cons, List.prod_cons, ih]

/-- Squeezing preserves well-formedness. -/
theorem squeeze_wf (a : NDArray) (h : a.wf) : a.squeeze.wf := by
  show a.data.length = (a.shape.filter (fun d => d ≠ 1)).prod
  rw [prod_filter_ne_one]
  exact h

/-- A squeezed array has no singleton dimensions. -/
theorem squeeze_shape_ne_one (a : NDArray) : ∀ d ∈ a.squeeze.shape, d ≠ 1 := by
  intro d hd
  simp [NDArray.squeeze] at hd
  exact hd.2

/-- Squeezing an array with no singleton dimensions is the identity. -/
theorem squeeze_of_ne_one (s : NDArray) (h : ∀ d ∈ s.shape, d ≠ 1) :
    s.squeeze = s := by
  unfold NDArray.squeeze
  rw [List.filter_eq_self.mpr (fun d hd => by simpa using h d hd)]

/-- Concatenating the consecutive `c`-element chunks of a list of length
`d0 * c` gives back the list. -/
theorem chunks_flatMap (c : Nat) :
    ∀ (d0 : Nat) (d : List Int), d.length = d0 * c →
      (List.range d0).flatMap (fun i => (d.drop (i * c)).take c) = d := by
  intro d0
  induction d0 with
  | zero =>
    intro d hd
    simp only [Nat.zero_mul, List.length_eq_zero] at hd
    simp [hd]
  | succ n ih =>
    intro d hd
    rw [List.range_succ_eq_map]
    simp only [List.flatMap_cons, Nat.zero_mul, List.drop_zero, List.flatMap_map]
    have hrec : ((List.range n).flatMap fun a => ((d.drop (Nat.succ a * c)).take c)) =
        (List.range n).flatMap (fun i => (((d.drop c).drop (i * c)).take c)) := by
      apply List.flatMap_congr
      intro i _
      rw [List.drop_drop, Nat.succ_mul, Nat.add_comm]
    rw [hrec, ih (d.drop c) (by simp [hd, Nat.succ_mul])]
    exact List.take_append_drop c d

/-- Taking one element after dropping `i` isolates the `i`-th element. -/
theorem take_one_drop (d : List Int) :
    ∀ (i : Nat), i < d.length → (d.drop i).take 1 = [d.getD i 0] := by
  induction d with
  | nil => intro i h; simp at h
  | cons x t ih =>
    intro i h
    cases i with
    | zero => simp
    | succ j => simpa using ih j (by simpa using h)

end Niio

namespace Niio

/-- Column-stacking a one-element list of arrays succeeds, and squeezing the
stack undoes the ndmin-2 reshaping: for an array with no singleton
dimensions the round trip is the identity. -/
theorem columnStack_singleton (s : NDArray) (hwf : s.wf)
    (hno : ∀ d ∈ s.shape, d ≠ 1) :
    ∃ st, columnStack [s] = some st ∧ st.squeeze = s := by
  rcases s with ⟨sh, da⟩
  rcases sh with _ | ⟨n, sh2⟩
  · have hlen : da.length = 1 := by simpa [NDArray.wf] using hwf
    refine ⟨⟨[1, 1], da⟩, ?_, ?_⟩
    · have hr1 : List.range 1 = [0] := rfl
      simp [columnStack, to2dT, concatAx1, List.take_of_length_le, hlen, hr1]
    · simp [NDArray.squeeze]
  · rcases sh2 with _ | ⟨m, sh3⟩
    · have hn : n ≠ 1 := hno n (by simp)
      have hlen : da.length = n := by simpa [NDArray.wf] using hwf
      refine ⟨⟨[n, 1], da⟩, ?_, ?_⟩
      · have hch := chunks_flatMap 1 n da (by omega)
        simp only [Nat.mul_one] at hch
        simp only [columnStack, List.map_cons, List.map_nil, to2dT, concatAx1,
          List.all_cons, List.all_nil, beq_self_eq_true, Bool.and_true,
          Bool.and_self, if_true, List.getD_cons_succ, List.getD_cons_zero,
          List.flatMap_cons, List.flatMap_nil,
          List.append_nil, Nat.mul_one, Nat.one_mul, List.prod_nil,
          List.sum_cons, List.sum_nil, Nat.add_zero]
        rw [hch]
      · simp [NDArray.squeeze, hn]
    · have hlen : da.length = n * (m * sh3.prod) := by
        simpa [NDArray.wf, List.prod_cons, Nat.mul_assoc] using hwf
      refine ⟨⟨n :: m :: sh3, da⟩, ?_, ?_⟩
      · have hch := chunks_flatMap (m * sh3.prod) n da hlen
        simp only [columnStack, List.map_cons, List.map_nil, to2dT, concatAx1,
          List.all_cons, List.all_nil, beq_self_eq_true, Bool.and_true,
          Bool.and_self, if_true, List.getD_cons_succ, List.getD_cons_zero,
          List.flatMap_cons, List.flatMap_nil,
          List.append_nil, List.sum_cons, List.sum_nil, Nat.add_zero]
        rw [hch]
      · exact squeeze_of_ne_one ⟨n :: m :: sh3, da⟩ hno

end Niio

namespace Niio

/-- A valid index reads back through `getElem?` as its `getD` value. -/
theorem getElem?_eq_getD {α : Type} (dflt : α) :
    ∀ (l : List α) (j : Nat), j < l.length → l[j]? = some (l.getD j dflt) := by
  intro l
  induction l with
  | nil => intro j h; simp at h
  | cons x t ih =>
    intro j h
    cases j with
    | zero => simp
    | succ i => simpa using ih i (by simpa using h)

/-- The gathering loop of `loadGii` materializes exactly the selected
squeezed arrays, in selector order, when every index is in range. -/
theorem gatherDarrays_in_range (darrays : List NDArray) :
    ∀ (ds : List Nat), (∀ j ∈ ds, j < darrays.length) →
      gatherDarrays darrays ds =
        .ok (ds.map (fun j => (darrays.getD j ⟨[], []⟩).squeeze)) := by
  intro ds
  induction ds with
  | nil => intro _; rfl
  | cons j t ih =>
    intro h
    have hj := getElem?_eq_getD (⟨[], []⟩ : NDArray) darrays j (h j (by simp))
    have hrec := ih (fun x hx => h x (by simp [hx]))
    simp only [gatherDarrays, List.get?_eq_getElem?, hj, hrec, Except.map,
      List.map_cons]

/-- On a gifti image, the source's selector normalization computes exactly
the index list `selIndices` describes. -/
theorem normalizeSelector_gifti (darrays : List NDArray) (sel : GiiSelector) :
    normalizeSelector sel (.gifti darrays) =
      .ok (selIndices sel darrays.length) := by
  cases sel with
  | int i => rfl
  | ndarray l => rfl
  | list l =>
    by_cases h : l = []
    · subst h
      simp [normalizeSelector, selIndices, GiiImage.numDarrays, Except.map]
    · simp [normalizeSelector, selIndices, h]

/-- C5: `loadGii` selector handling on a multi-array gifti image.  In
general, for every image and every selector — a bare int normalized to a
one-element list, an array-like normalized to its index list, or a list
selector whose empty value expands to all array indices in order — with
in-range indices, the result is the squeezed column-stack of the selected
squeezed arrays, in selector order.  In particular: the empty selector on a
three-column image stacks the columns n-by-3 in order 0,1,2; a one-element
selector yields the single squeezed array at that index (the singleton
column-stack plus the final squeeze cancel); and a bare int selector and a
nonempty array-like selector each behave as the corresponding list
selector. -/
theorem c5_loadGii_selector_normalization_and_stacking :
    (∀ (darrays : List NDArray) (sel : GiiSelector),
      (∀ j ∈ selIndices sel darrays.length, j < darrays.length) →
      loadGii (.image (.gifti darrays)) sel =
        match columnStack ((selIndices sel darrays.length).map
            (fun j => (darrays.getD j ⟨[], []⟩).squeeze)) with
        | some st => .ok st.squeeze
        | none => .error .valueError) ∧
    (∀ (a b c : NDArray) (n : Nat), n ≠ 1 →
      a.shape = [n] → b.shape = [n] → c.shape = [n] → a.wf → b.wf → c.wf →
      loadGii (.image (.gifti [a, b, c])) (.list []) =
        .ok ⟨[n, 3], (List.range n).flatMap
          (fun i => [a.data.getD i 0, b.data.getD i 0, c.data.getD i 0])⟩) ∧
    (∀ (darrays : List NDArray) (j : Nat) (x : NDArray),
      darrays.get? j = some x → x.wf →
      loadGii (.image (.gifti darrays)) (.list [j]) = .ok x.squeeze) ∧
    (∀ (img : GiiImage) (j : Nat),
      loadGii (.image img) (.int j) = loadGii (.image img) (.list [j])) ∧
    (∀ (img : GiiImage) (l : List Nat), l ≠ [] →
      loadGii (.image img) (.ndarray l) = loadGii (.image img) (.list l)) := by
  refine ⟨?_, ?_, ?_, ?_, ?_⟩
  · intro darrays sel hrange
    have hnorm := normalizeSelector_gifti darrays sel
    have hgather := gatherDarrays_in_range darrays
      (selIndices sel darrays.length) hrange
    simp only [loadGii, hnorm, hgather]
  · intro a b c n hn ha hb hc hwa hwb hwc
    have hsq : ∀ x : NDArray, x.shape = [n] → x.squeeze = ⟨[n], x.data⟩ := by
      intro x hx
      unfold NDArray.squeeze
      rw [hx]
      simp [List.filter_cons, hn]
    have hla : a.data.length = n := by rw [hwa, ha]; simp
    have hlb : b.data.length = n := by rw [hwb, hb]; simp
    have hlc : c.data.length = n := by rw [hwc, hc]; simp
    have hnorm : normalizeSelector (.list []) (.gifti [a, b, c]) = .ok [0, 1, 2] := rfl
    have hgather : gatherDarrays [a, b, c] [0, 1, 2] =
        .ok [⟨[n], a.data⟩, ⟨[n], b.data⟩, ⟨[n], c.data⟩] := by
      simp [gatherDarrays, hsq a ha, hsq b hb, hsq c hc, Except.map]
    have hstack : columnStack [⟨[n], a.data⟩, ⟨[n], b.data⟩, ⟨[n], c.data⟩] =
        some ⟨[n, 3], (List.range n).flatMap
          (fun i => [a.data.getD i 0, b.data.getD i 0, c.data.getD i 0])⟩ := by
      simp only [columnStack, List.map_cons, List.map_nil, to2dT, concatAx1,
        List.all_cons, List.all_nil, beq_self_eq_true, Bool.and_true,
        Bool.and_self, if_true, List.getD_cons_succ, List.getD_cons_zero,
        List.flatMap_cons, List.flatMap_nil, List.append_nil, Nat.mul_one,
        Nat.one_mul, List.prod_nil, List.sum_cons, List.sum_nil, Nat.add_zero]
      refine congrArg some ?_
      refine congrArg₂ NDArray.mk ?_ ?_
      · norm_num
      · apply List.flatMap_congr
        intro i hi
        have hi' : i < n := List.mem_range.mp hi
        rw [take_one_drop a.data i (by rw [hla]; exact hi'),
          take_one_drop b.data i (by rw [hlb]; exact hi'),
          take_one_drop c.data i (by rw [hlc]; exact hi')]
        rfl
    have hsqf : (⟨[n, 3], (List.range n).flatMap
        (fun i => [a.data.getD i 0, b.data.getD i 0, c.data.getD i 0])⟩ :
          NDArray).squeeze =
        ⟨[n, 3], (List.range n).flatMap
          (fun i => [a.data.getD i 0, b.data.getD i 0, c.data.getD i 0])⟩ := by
      apply squeeze_of_ne_one
      intro d hd
      rcases List.mem_cons.mp hd with rfl | hd2
      · exact hn
      · rcases List.mem_cons.mp hd2 with rfl | hd3
        · decide
        · exact absurd hd3 (List.not_mem_nil d)
    simp only [loadGii, hnorm, hgather, hstack, hsqf]
  · intro darrays j x hj hwf
    have hnorm : normalizeSelector (.list [j]) (.gifti darrays) = .ok [j] := by
      simp [normalizeSelector]
    have hj2 : darrays[j]? = some x := by
      simpa [List.get?_eq_getElem?] using hj
    have hgather : gatherDarrays darrays [j] = .ok [x.squeeze] := by
      simp [gatherDarrays, hj2, Except.map]
    obtain ⟨st, hst, hsq⟩ := columnStack_singleton x.squeeze (squeeze_wf x hwf)
      (squeeze_shape_ne_one x)
    simp only [loadGii, hnorm, hgather, hst, hsq]
  · intro img j
    have h1 : normalizeSelector (.int j) img = .ok [j] := rfl
    have h2 : normalizeSelector (.list [j]) img = .ok [j] := by
      simp [normalizeSelector]
    simp only [loadGii, h1, h2]
  · intro img l hl
    have h1 : normalizeSelector (.ndarray l) img = .ok l := rfl
    have h2 : normalizeSelector (.list l) img = .ok l := by
      simp [normalizeSelector, hl]
    simp only [loadGii, h1, h2]

/-- C5 witness: the selector theorem applied at a concrete three-column
image: the general conjunct at a two-element array-like selector in
non-monotone order, the stacking conjunct at the empty selector, the
singleton conjunct at selector [1], and the int-selector conjunct at 1. -/
theorem c5_loadGii_selector_witness :
    loadGii (.image (.gifti [⟨[2], [1, 2]⟩, ⟨[2], [3, 4]⟩, ⟨[2], [5, 6]⟩]))
        (.ndarray [2, 0]) = .ok ⟨[2, 2], [5, 1, 6, 2]⟩ ∧
    loadGii (.image (.gifti [⟨[2], [1, 2]⟩, ⟨[2], [3, 4]⟩, ⟨[2], [5, 6]⟩]))
        (.list []) = .ok ⟨[2, 3], [1, 3, 5, 2, 4, 6]⟩ ∧
    loadGii (.image (.gifti [⟨[2], [1, 2]⟩, ⟨[2], [3, 4]⟩, ⟨[2], [5, 6]⟩]))
        (.list [1]) = .ok ⟨[2], [3, 4]⟩ ∧
    loadGii (.image (.gifti [⟨[2], [1, 2]⟩, ⟨[2], [3, 4]⟩, ⟨[2], [5, 6]⟩]))
        (.int 1) = .ok ⟨[2], [3, 4]⟩ := by
  refine ⟨?_, ?_, ?_, ?_⟩
  · have h := c5_loadGii_selector_normalization_and_stacking.1
      [⟨[2], [1, 2]⟩, ⟨[2], [3, 4]⟩, ⟨[2], [5, 6]⟩] (.ndarray [2, 0]) (by decide)
    rw [h]; decide
  · have h := c5_loadGii_selector_normalization_and_stacking.2.1
      ⟨[2], [1, 2]⟩ ⟨[2], [3, 4]⟩ ⟨[2], [5, 6]⟩ 2 (by decide) rfl rfl rfl
      (by decide) (by decide) (by decide)
    rw [h]; decide
  · have h := c5_loadGii_selector_normalization_and_stacking.2.2.1
      [⟨[2], [1, 2]⟩, ⟨[2], [3, 4]⟩, ⟨[2], [5, 6]⟩] 1 ⟨[2], [3, 4]⟩ rfl (by decide)
    rw [h]; decide
  · have h := c5_loadGii_selector_normalization_and_stacking.2.2.2.1
      (.gifti [⟨[2], [1, 2]⟩, ⟨[2], [3, 4]⟩, ⟨[2], [5, 6]⟩]) 1
    rw [h]; decide

end Niio
